import Mathlib

/-!
Shallow embedding of the BFHL computation service (src/server.js).

JavaScript numbers that the service accepts are validated to be safe
integers (exactly representable whole numbers), so they are modelled as
`Int`/`Nat`; the safe-integer range check `Number.isSafeInteger` becomes
the bound `natAbs ≤ 2^53 - 1`.
-/

namespace BFHL

/-- `MAX_FIBONACCI_INPUT` from server.js line 19. -/
def MAX_FIBONACCI_INPUT : Nat := 1000

/-- `MAX_ARRAY_LENGTH` from server.js line 20. -/
def MAX_ARRAY_LENGTH : Nat := 1000

/-- `MAX_ARRAY_VALUE` from server.js line 21. -/
def MAX_ARRAY_VALUE : Nat := 1000000

/-- `MAX_AI_QUESTION_LENGTH` from server.js line 22. -/
def MAX_AI_QUESTION_LENGTH : Nat := 1000

/-- `Number.MAX_SAFE_INTEGER = 2^53 - 1`: the largest magnitude for which
`Number.isSafeInteger` holds. -/
def SAFE_MAX : Nat := 2 ^ 53 - 1

/-- The odd-step trial-division loop of `isPrime` (server.js lines 34-36):
`for (let i = 3; i * i <= n; i += 2) if (n % i === 0) return false; return true`. -/
def trialOdd (n : Nat) (i : Nat) : Bool :=
  if i * i ≤ n then
    if n % i = 0 then false else trialOdd n (i + 2)
  else true
termination_by n + 2 - i
decreasing_by
  rename_i h _
  have hi : i ≤ n := by
    rcases Nat.eq_zero_or_pos i with h0 | h0
    · omega
    · calc i = i * 1 := (Nat.mul_one i).symm
        _ ≤ i * i := Nat.mul_le_mul_left i h0
        _ ≤ n := h
  omega

/-- `isPrime` (server.js lines 29-38). The input is an already-validated
integer, so the `Number.isInteger` conjunct of the first guard always
holds and the guard reduces to `n < 2`. -/
def isPrime (n : Int) : Bool :=
  if n < 2 then false
  else if n = 2 then true
  else if n % 2 = 0 then false
  else trialOdd n.toNat 3

/-- `gcd` (server.js lines 43-47) after taking absolute values:
`b === 0 ? a : gcd(b, a % b)` on non-negative numbers. -/
def gcdRec (a b : Nat) : Nat :=
  if b = 0 then a else gcdRec b (a % b)
termination_by b
decreasing_by
  exact Nat.mod_lt _ (Nat.pos_of_ne_zero (by assumption))

/-- `gcd` (server.js lines 43-47) on integers: both arguments are replaced
by their absolute values first. -/
def gcdJS (a b : Int) : Int := (gcdRec a.natAbs b.natAbs : Nat)

/-- `lcm` (server.js lines 52-55): `0` when either argument is `0`, else
`|a*b| / gcd(a,b)`. -/
def lcmJS (a b : Int) : Int :=
  if a = 0 ∨ b = 0 then 0
  else ((a * b).natAbs / gcdRec a.natAbs b.natAbs : Nat)

/-- The fibonacci generation loop (server.js lines 193-197): push `a`,
then shift `[a, b] = [b, a + b]`, `n` times. -/
def fibLoop : Nat → Nat → Nat → List Nat
  | 0, _, _ => []
  | n + 1, a, b => a :: fibLoop n b (a + b)

/-- The fibonacci executor (server.js lines 188-198): empty result for
`n = 0`, otherwise the loop starting from accumulators `0, 1`. -/
def fibonacciSeries (n : Nat) : List Nat :=
  if n = 0 then [] else fibLoop n 0 1

/-- The value of the `i`-th cell produced by `fibLoop` run from
accumulators `a, b`. -/
def fibAux : Nat → Nat → Nat → Nat
  | 0, a, _ => a
  | i + 1, a, b => fibAux i b (a + b)

/-! ## JSON values and per-operation validation -/

/-- A JSON value as it reaches the handler after body parsing. A JS
number that is a whole number exactly representable is `int n`; any other
number (fractional, `NaN`, `Infinity`, or a parsed literal that rounded)
is `badNum`, for which `Number.isInteger/isSafeInteger` is false. -/
inductive JVal where
  | int (n : Int)
  | badNum
  | str (s : String)
  | arr (elems : List JVal)
  | other

/-- `isSafeInteger` (server.js lines 60-64) on a JSON value: an integer
number within the exactly-representable range. -/
def isSafeIntegerV : JVal → Bool
  | JVal.int n => n.natAbs ≤ SAFE_MAX
  | _ => false

/-- The element loop of `validateIntegerArray` (server.js lines 82-90),
returning the first error message, if any; `i` is the index of the head
of `l` in the original array. -/
def checkElems : List JVal → Nat → Option String
  | [], _ => none
  | v :: t, i =>
    if !(isSafeIntegerV v) then
      some ("Invalid integer at index " ++ toString i)
    else
      match v with
      | JVal.int n =>
        if MAX_ARRAY_VALUE < n.natAbs then
          some ("Value at index " ++ toString i ++ " exceeds maximum allowed value")
        else checkElems t (i + 1)
      | _ => some ("Invalid integer at index " ++ toString i)

/-- `validateIntegerArray` (server.js lines 69-93): `none` means valid,
`some msg` carries the validation error message. -/
def validateIntegerArray (v : JVal) (minLength : Nat) : Option String :=
  match v with
  | JVal.arr l =>
    if l.length = 0 ∧ 0 < minLength then some "Array cannot be empty"
    else if MAX_ARRAY_LENGTH < l.length then
      some ("Array length exceeds maximum of " ++ toString MAX_ARRAY_LENGTH)
    else checkElems l 0
  | _ => some "Input must be an array"

/-- Projection of a validated JSON array to its integers (validation
guarantees every element is `JVal.int`). -/
def toIntList (l : List JVal) : List Int :=
  l.map fun v => match v with | JVal.int n => n | _ => 0

/-! ## LCM and HCF executors -/

/-- One pairwise step of the lcm reduction (server.js lines 238-242):
compute `lcm(a,b)` and fail (`none`) when the result is not a safe
integer. In the exact-integer model the value is always finite and an
integer, so the `isFinite`/`isSafeInteger` guard is the magnitude bound. -/
def lcmStep (a b : Int) : Option Int :=
  let v := lcmJS a b
  if v.natAbs ≤ SAFE_MAX then some v else none

/-- The `reduce` of the lcm branch after its initial element (server.js
lines 237-243): `none` models the thrown overflow error. -/
def lcmFold : Int → List Int → Option Int
  | a, [] => some a
  | a, b :: t =>
    match lcmStep a b with
    | none => none
    | some v => lcmFold v t

/-- The lcm executor on validated integers (server.js lines 232-250):
short-circuit to `0` when a zero element is present, otherwise the
checked left-to-right reduction; `none` is the 400 overflow response
(also produced for the empty array, where JS `reduce` throws and the
surrounding `catch` converts it to the same 400). -/
def lcmExecutor (arr : List Int) : Option Int :=
  if arr.any (fun v => v == 0) then some 0
  else
    match arr with
    | [] => none
    | x :: t => lcmFold x t

/-- The unchecked sequence of intermediate reduction results the lcm
`reduce` would produce from accumulator `a` over the rest of the array. -/
def lcmIntermediates : Int → List Int → List Int
  | _, [] => []
  | a, b :: t => lcmJS a b :: lcmIntermediates (lcmJS a b) t

/-- The hcf executor (server.js line 267): `arr.reduce((a, b) => gcd(a, b))`.
`none` models the `TypeError` a `reduce` on an empty array throws (which
the outer catch turns into a 500; validation makes this unreachable). -/
def hcfExecutor (arr : List Int) : Option Int :=
  match arr with
  | [] => none
  | x :: t => some (t.foldl (fun a b => gcdJS a b) x)

/-! ## AI answer extraction -/

/-- ASCII whitespace matched by JS `trim` and the `\s` class (the
characters that can occur in the modelled strings). -/
def isWs (c : Char) : Bool :=
  c = ' ' || c = '\t' || c = '\n' || c = '\r' || c = '\x0b' || c = '\x0c'

/-- The punctuation class `[.,!?;:]` of the `replace` on server.js
line 336. -/
def isPunctCh (c : Char) : Bool :=
  c = '.' || c = ',' || c = '!' || c = '?' || c = ';' || c = ':'

/-- JS `String.prototype.trim` on a character list: drop whitespace from
both ends. -/
def trimChars (l : List Char) : List Char :=
  ((l.dropWhile isWs).reverse.dropWhile isWs).reverse

/-- `trimmed.split(/\s+/)[0]`: the first whitespace-delimited token of an
already-trimmed string (the empty string when the trimmed string is
empty, as in JS where `"".split(/\s+/)` is `[""]`). -/
def firstTok (l : List Char) : List Char :=
  (trimChars l).takeWhile fun c => !(isWs c)

/-- The answer extraction of the AI branch (server.js lines 336-341):
`aiResponse.trim().split(/\s+/)[0].replace(/[.,!?;:]/g, '')`, falling
back to `"Unknown"` when the result is empty. The `replace` with the
`g` flag deletes every occurrence of the punctuation characters. -/
def extractWord (reply : String) : String :=
  let tok := (firstTok reply.data).filter fun c => !(isPunctCh c)
  if tok.isEmpty then "Unknown" else String.mk tok

/-- Modelled from the spec: §4.7 says the executor "extracts the first
whitespace-delimited token of the reply, strips trailing punctuation
characters, and returns it; if extraction yields an empty token, returns
the literal fallback value Unknown". Only trailing punctuation is
removed here. -/
def extractWordSpec (reply : String) : String :=
  let tok := ((firstTok reply.data).reverse.dropWhile isPunctCh).reverse
  if tok.isEmpty then "Unknown" else String.mk tok

/-! ## The POST /bfhl handler -/

/-- The result payload placed in `data` on success. -/
inductive RData where
  | natList (l : List Nat)
  | intList (l : List Int)
  | intVal (n : Int)
  | strVal (s : String)

/-- A JSON response as written by the handler: HTTP status plus the
envelope fields (absent JSON fields are `none`). -/
structure Response where
  status : Nat
  is_success : Bool
  official_email : Option String
  data : Option RData
  error : Option String

/-- An error response: every failure path writes
`{is_success: false, error: msg}` with no other field. -/
def errResp (status : Nat) (msg : String) : Response :=
  ⟨status, false, none, none, some msg⟩

/-- The success response of the handler (server.js lines 368-372):
`{is_success: true, official_email, data}`. -/
def okResp (email : String) (d : RData) : Response :=
  ⟨200, true, some email, some d, none⟩

/-- The outcome of the outbound `axios.post` call of the AI branch, an
external collaborator. `ok txt` is an HTTP success whose extracted
`candidates[0].content.parts[0].text` is `txt` (`none` when the path is
missing; a present empty string is equally falsy in the `!aiResponse`
guard and is checked in the handler); the three failure constructors are
the three shapes inspected in the catch block (server.js lines 343-364). -/
inductive AIOutcome where
  | ok (txt : Option String)
  | errorResponse
  | timedOut
  | netError

/-- The allow-list of operation keys (server.js line 147). -/
def allowedKeys : List String := ["fibonacci", "prime", "lcm", "hcf", "AI"]

/-- The error message of the unknown-key response (server.js line 153). -/
def invalidKeyMsg : String :=
  "Invalid key. Allowed keys: fibonacci, prime, lcm, hcf, AI"

/-- The fibonacci branch (server.js lines 160-199). -/
def handleFibonacci (email : String) (v : JVal) : Response :=
  if !(isSafeIntegerV v) then errResp 400 "Fibonacci input must be a valid integer"
  else
    match v with
    | JVal.int n =>
      if n < 0 then errResp 400 "Fibonacci input must be non-negative"
      else if (MAX_FIBONACCI_INPUT : Int) < n then
        errResp 400 ("Fibonacci input exceeds maximum of " ++ toString MAX_FIBONACCI_INPUT)
      else okResp email (RData.natList (fibonacciSeries n.toNat))
    | _ => errResp 400 "Fibonacci input must be a valid integer"

/-- The prime branch (server.js lines 202-216). -/
def handlePrime (email : String) (v : JVal) : Response :=
  match validateIntegerArray v 0 with
  | some msg => errResp 400 msg
  | none =>
    match v with
    | JVal.arr l => okResp email (RData.intList ((toIntList l).filter fun num => isPrime num))
    | _ => errResp 400 "Input must be an array"

/-- The lcm branch (server.js lines 219-251). -/
def handleLcm (email : String) (v : JVal) : Response :=
  match validateIntegerArray v 1 with
  | some msg => errResp 400 msg
  | none =>
    match v with
    | JVal.arr l =>
      match lcmExecutor (toIntList l) with
      | some r => okResp email (RData.intVal r)
      | none => errResp 400 "LCM calculation overflow - values too large"
    | _ => errResp 400 "Input must be an array"

/-- The hcf branch (server.js lines 254-268). -/
def handleHcf (email : String) (v : JVal) : Response :=
  match validateIntegerArray v 1 with
  | some msg => errResp 400 msg
  | none =>
    match v with
    | JVal.arr l =>
      match hcfExecutor (toIntList l) with
      | some r => okResp email (RData.intVal r)
      | none => errResp 500 "Internal server error"
    | _ => errResp 400 "Input must be an array"

/-- The AI branch (server.js lines 271-365): input validation, the
configuration check, then the call outcome. `apiKey = none` models an
unset (or empty, hence falsy) `GEMINI_API_KEY`. -/
def handleAI (email : String) (apiKey : Option String) (v : JVal)
    (outcome : AIOutcome) : Response :=
  match v with
  | JVal.str question =>
    if (trimChars question.data).length = 0 then
      errResp 400 "AI question cannot be empty"
    else if MAX_AI_QUESTION_LENGTH < question.length then
      errResp 400 ("AI question exceeds maximum length of " ++ toString MAX_AI_QUESTION_LENGTH)
    else
      match apiKey with
      | none => errResp 500 "AI service not configured"
      | some _ =>
        match outcome with
        | AIOutcome.ok none => errResp 500 "AI service returned invalid response"
        | AIOutcome.ok (some txt) =>
          if txt = "" then errResp 500 "AI service returned invalid response"
          else okResp email (RData.strVal (extractWord txt))
        | AIOutcome.errorResponse => errResp 502 "AI service error"
        | AIOutcome.timedOut => errResp 504 "AI service timeout"
        | AIOutcome.netError => errResp 503 "AI service unavailable"
  | _ => errResp 400 "AI input must be a string"

/-- The GET /health handler (server.js lines 96-109): the 500 error
envelope when the identity is unconfigured, otherwise a 200 response
`{is_success: true, official_email}` that carries no `data` field. -/
def healthHandler (email : Option String) : Response :=
  match email with
  | none => errResp 500 "Server configuration error"
  | some e => ⟨200, true, some e, none, none⟩

/-- The POST /bfhl handler (server.js lines 112-382). `email = none`
models an unset (or empty) `OFFICIAL_EMAIL`; `body = none` models a body
that is missing or not an object; otherwise the body is its key/value
pairs in order (JSON object keys are distinct). -/
def bfhlHandler (email : Option String) (apiKey : Option String)
    (body : Option (List (String × JVal))) (outcome : AIOutcome) : Response :=
  match email with
  | none => errResp 500 "Server configuration error"
  | some email =>
    match body with
    | none => errResp 400 "Invalid request body"
    | some [] => errResp 400 "Request body cannot be empty"
    | some ((k, v) :: rest) =>
      if rest.length ≠ 0 then errResp 400 "Request must contain exactly one key"
      else if !(allowedKeys.contains k) then errResp 400 invalidKeyMsg
      else if k = "fibonacci" then handleFibonacci email v
      else if k = "prime" then handlePrime email v
      else if k = "lcm" then handleLcm email v
      else if k = "hcf" then handleHcf email v
      else handleAI email apiKey v outcome

/-! ## Fibonacci lemmas -/

theorem fibLoop_length (n : Nat) : ∀ a b, (fibLoop n a b).length = n := by
  induction n with
  | zero => intro a b; rfl
  | succ n ih => intro a b; simp [fibLoop, ih]

theorem fibLoop_get? (n : Nat) :
    ∀ i a b, i < n → (fibLoop n a b).get? i = some (fibAux i a b) := by
  induction n with
  | zero => intro i a b h; omega
  | succ n ih =>
    intro i a b h
    cases i with
    | zero => rfl
    | succ i => simpa [fibLoop, fibAux] using ih i b (a + b) (by omega)

theorem fibLoop_getD (n i a b : Nat) (h : i < n) :
    (fibLoop n a b).getD i 0 = fibAux i a b := by
  rw [List.getD_eq_get?, fibLoop_get? n i a b h]; rfl

theorem fibAux_add_two (i : Nat) : ∀ a b, fibAux (i + 2) a b = fibAux i a b + fibAux (i + 1) a b := by
  induction i with
  | zero => intro a b; rfl
  | succ i ih =>
    intro a b
    show fibAux (i + 2) b (a + b) = fibAux (i + 1) a b + fibAux (i + 2) a b
    rw [ih b (a + b)]
    rfl

/-! ## Primality lemmas -/

theorem trialOdd_iff (k : Nat) :
    ∀ n i, k = n + 2 - i → n % 2 = 1 → 3 ≤ i → i % 2 = 1 →
      (trialOdd n i = true ↔ ∀ m, i ≤ m → m * m ≤ n → ¬ m ∣ n) := by
  induction k using Nat.strong_induction_on with
  | _ k ih =>
    intro n i hk hn hi3 hiodd
    rw [trialOdd]
    split
    case isTrue h =>
      have hile : i ≤ n := by
        calc i = i * 1 := (Nat.mul_one i).symm
          _ ≤ i * i := Nat.mul_le_mul_left i (by omega)
          _ ≤ n := h
      split
      case isTrue hdvd =>
        simp only [Bool.false_eq_true, false_iff]
        intro hall
        exact hall i (Nat.le_refl i) h (Nat.dvd_of_mod_eq_zero hdvd)
      case isFalse hnd =>
        rw [ih (n + 2 - (i + 2)) (by omega) n (i + 2) rfl hn (by omega) (by omega)]
        constructor
        · intro hall m him hm hdm
          rcases Nat.lt_or_ge m (i + 2) with hlt | hge
          · rcases (by omega : m = i ∨ m = i + 1) with rfl | rfl
            · exact hnd (Nat.mod_eq_zero_of_dvd hdm)
            · have h2m : (2 : Nat) ∣ i + 1 := by omega
              have : (2 : Nat) ∣ n := Nat.dvd_trans h2m hdm
              omega
          · exact hall m hge hm hdm
        · intro hall m him hm
          exact hall m (by omega) hm
    case isFalse h =>
      simp only [true_iff]
      intro m him hm
      exfalso
      have : i * i ≤ m * m := Nat.mul_le_mul him him
      omega

theorem isPrime_iff (n : Int) : isPrime n = true ↔ 2 ≤ n ∧ Nat.Prime n.toNat := by
  unfold isPrime
  split
  case isTrue h =>
    simp only [Bool.false_eq_true, false_iff]
    intro ⟨h2, _⟩
    omega
  case isFalse h =>
    split
    case isTrue h2 =>
      subst h2
      simpa using Nat.prime_two
    case isFalse h2 =>
      have h3 : 3 ≤ n := by
        rcases Int.lt_or_lt_of_ne h2 with hlt | hgt
        · omega
        · omega
      split
      case isTrue heven =>
        simp only [Bool.false_eq_true, false_iff]
        intro ⟨_, hp⟩
        have h2d : (2 : Nat) ∣ n.toNat := by omega
        rcases (Nat.Prime.eq_one_or_self_of_dvd hp 2 h2d) with h1 | hself
        · omega
        · omega
      case isFalse heven =>
        have hN3 : 3 ≤ n.toNat := by omega
        have hNodd : n.toNat % 2 = 1 := by omega
        rw [trialOdd_iff (n.toNat + 2 - 3) n.toNat 3 rfl hNodd (by omega) (by omega)]
        constructor
        · intro hall
          refine ⟨by omega, Nat.prime_def_le_sqrt.mpr ⟨by omega, ?_⟩⟩
          intro m hm2 hmsq
          have hmm : m * m ≤ n.toNat := Nat.le_sqrt.mp hmsq
          rcases Nat.lt_or_ge m 3 with hlt | hge
          · have hm2' : m = 2 := by omega
            subst hm2'
            intro hd
            omega
          · exact hall m hge hmm
        · intro ⟨_, hp⟩ m hm3 hmm hdm
          rcases (Nat.Prime.eq_one_or_self_of_dvd hp m hdm) with h1 | hself
          · omega
          · subst hself
            nlinarith

/-! ## Claim theorems -/

/-- C1: for every request body reaching the Compute dispatch (with the
identity configured): zero keys give the 400 empty-body error, more than
one key gives the 400 multiple-keys error, and a single key outside
`{fibonacci, prime, lcm, hcf, AI}` gives the 400 unknown-operation
error — in each case whatever the associated values are, i.e. before any
operation-specific validation. -/
theorem dispatch_key_validation (email : String) (apiKey : Option String)
    (body : List (String × JVal)) (outcome : AIOutcome) :
    (body = [] →
      bfhlHandler (some email) apiKey (some body) outcome =
        errResp 400 "Request body cannot be empty") ∧
    (2 ≤ body.length →
      bfhlHandler (some email) apiKey (some body) outcome =
        errResp 400 "Request must contain exactly one key") ∧
    (∀ k v, body = [(k, v)] → allowedKeys.contains k = false →
      bfhlHandler (some email) apiKey (some body) outcome = errResp 400 invalidKeyMsg) := by
  refine ⟨?_, ?_, ?_⟩
  · intro h
    subst h
    rfl
  · intro h
    match body, h with
    | (k, v) :: rest, h =>
      have hr : rest.length ≠ 0 := by
        simp only [List.length_cons] at h
        omega
      simp [bfhlHandler, hr]
  · intro k v hb hk
    subst hb
    simp [bfhlHandler, hk]
    intro hmem
    exact absurd hmem (by simpa using hk)

theorem dispatch_key_validation_witness :
    bfhlHandler (some "e@x") none (some [("foo", JVal.int 3)]) AIOutcome.netError =
      errResp 400 invalidKeyMsg :=
  (dispatch_key_validation "e@x" none [("foo", JVal.int 3)] AIOutcome.netError).2.2
    "foo" (JVal.int 3) rfl (by decide)

/-- C2: for every validated fibonacci count `n ≤ 1000`, the executor's
sequence has length `n`, is empty for `n = 0`, is `[0]` for `n = 1`,
starts `0, 1` for `n ≥ 2`, and each later entry is the sum of the two
preceding entries. -/
theorem fibonacci_executor_correct (n : Nat) (h : n ≤ 1000) :
    (fibonacciSeries n).length = n ∧
    (n = 0 → fibonacciSeries n = []) ∧
    (n = 1 → fibonacciSeries n = [0]) ∧
    (2 ≤ n → (fibonacciSeries n).take 2 = [0, 1]) ∧
    (∀ i, 2 ≤ i → i < n →
      (fibonacciSeries n).getD i 0 =
        (fibonacciSeries n).getD (i - 1) 0 + (fibonacciSeries n).getD (i - 2) 0) := by
  refine ⟨?_, ?_, ?_, ?_, ?_⟩
  · by_cases hn : n = 0
    · subst hn; rfl
    · simp [fibonacciSeries, hn, fibLoop_length]
  · intro hn; subst hn; rfl
  · intro hn; subst hn; rfl
  · intro hn
    obtain ⟨m, rfl⟩ : ∃ m, n = m + 2 := ⟨n - 2, by omega⟩
    simp [fibonacciSeries, fibLoop]
  · intro i h2 hin
    have hn0 : n ≠ 0 := by omega
    simp only [fibonacciSeries, if_neg hn0]
    rw [fibLoop_getD n i 0 1 hin, fibLoop_getD n (i - 1) 0 1 (by omega),
      fibLoop_getD n (i - 2) 0 1 (by omega)]
    obtain ⟨j, rfl⟩ : ∃ j, i = j + 2 := ⟨i - 2, by omega⟩
    have e1 : j + 2 - 1 = j + 1 := by omega
    have e2 : j + 2 - 2 = j := by omega
    rw [e1, e2, fibAux_add_two j 0 1, Nat.add_comm]

theorem fibonacci_executor_correct_witness :
    7 ≤ 1000 ∧
    ((fibonacciSeries 7).length = 7 ∧
    (7 = 0 → fibonacciSeries 7 = []) ∧
    (7 = 1 → fibonacciSeries 7 = [0]) ∧
    (2 ≤ 7 → (fibonacciSeries 7).take 2 = [0, 1]) ∧
    (∀ i, 2 ≤ i → i < 7 →
      (fibonacciSeries 7).getD i 0 =
        (fibonacciSeries 7).getD (i - 1) 0 + (fibonacciSeries 7).getD (i - 2) 0)) :=
  ⟨by decide, fibonacci_executor_correct 7 (by decide)⟩

/-- C10: for every validated fibonacci count `n` with `80 ≤ n ≤ 1000`,
the returned sequence contains values above the safe-integer bound
`2^53 - 1`, the first of them at index 79, while every entry before
index 79 is still within the bound. -/
theorem fibonacci_exceeds_safe_range (n : Nat) (h80 : 80 ≤ n) (h : n ≤ 1000) :
    (∀ i, i < 79 → (fibonacciSeries n).getD i 0 ≤ SAFE_MAX) ∧
    SAFE_MAX < (fibonacciSeries n).getD 79 0 ∧
    ∃ x ∈ fibonacciSeries n, SAFE_MAX < x := by
  have hn0 : n ≠ 0 := by omega
  have hball : ∀ i, i < 79 → fibAux i 0 1 ≤ SAFE_MAX := by decide
  refine ⟨?_, ?_, ?_⟩
  · intro i hi
    rw [fibonacciSeries, if_neg hn0, fibLoop_getD n i 0 1 (by omega)]
    exact hball i hi
  · rw [fibonacciSeries, if_neg hn0, fibLoop_getD n 79 0 1 (by omega)]
    decide
  · refine ⟨fibAux 79 0 1, ?_, by decide⟩
    have hg : (fibonacciSeries n).get? 79 = some (fibAux 79 0 1) := by
      rw [fibonacciSeries, if_neg hn0]
      exact fibLoop_get? n 79 0 1 (by omega)
    exact List.get?_mem hg

/-- C3: the prime filter returns exactly the order- and
multiplicity-preserving subsequence of the prime elements, and the
code's primality predicate holds exactly on the integers `≥ 2` whose
absolute value is a prime number (so negatives, zero, one, and even
numbers above two are rejected, and trial division is complete). -/
theorem prime_filter_correct (A : List Int)
    (hb : ∀ x ∈ A, x.natAbs ≤ MAX_ARRAY_VALUE) :
    (A.filter fun num => isPrime num).Sublist A ∧
    (∀ x : Int, (A.filter fun num => isPrime num).count x =
      if isPrime x then A.count x else 0) ∧
    (∀ x : Int, isPrime x = true ↔ 2 ≤ x ∧ Nat.Prime x.toNat) := by
  refine ⟨List.filter_sublist A, ?_, isPrime_iff⟩
  intro x
  split
  case isTrue hx => exact List.count_filter (by simpa using hx)
  case isFalse hx =>
    rw [List.count_eq_zero]
    intro hmem
    rw [List.mem_filter] at hmem
    exact hx (by simpa using hmem.2)

theorem prime_filter_correct_witness :
    (∀ x ∈ ([2, 4, 7, 9, 11] : List Int), x.natAbs ≤ MAX_ARRAY_VALUE) ∧
    ((([2, 4, 7, 9, 11] : List Int).filter fun num => isPrime num).Sublist [2, 4, 7, 9, 11] ∧
    (∀ x : Int, (([2, 4, 7, 9, 11] : List Int).filter fun num => isPrime num).count x =
      if isPrime x then ([2, 4, 7, 9, 11] : List Int).count x else 0) ∧
    (∀ x : Int, isPrime x = true ↔ 2 ≤ x ∧ Nat.Prime x.toNat)) :=
  ⟨by decide, prime_filter_correct [2, 4, 7, 9, 11] (by decide)⟩

theorem lcmStep_eq_some (a b : Int) (h : (lcmJS a b).natAbs ≤ SAFE_MAX) :
    lcmStep a b = some (lcmJS a b) := by
  simp [lcmStep, h]

theorem lcmStep_eq_none (a b : Int) (h : SAFE_MAX < (lcmJS a b).natAbs) :
    lcmStep a b = none := by
  simp only [lcmStep]
  rw [if_neg (by omega)]

theorem lcmFold_none_iff (l : List Int) :
    ∀ a, lcmFold a l = none ↔ ∃ v ∈ lcmIntermediates a l, SAFE_MAX < v.natAbs := by
  induction l with
  | nil => intro a; simp [lcmFold, lcmIntermediates]
  | cons b t ih =>
    intro a
    by_cases hv : (lcmJS a b).natAbs ≤ SAFE_MAX
    · rw [lcmFold, lcmStep_eq_some a b hv]
      show lcmFold (lcmJS a b) t = none ↔ _
      rw [ih (lcmJS a b)]
      simp only [lcmIntermediates, List.mem_cons]
      constructor
      · rintro ⟨v, hvm, hvb⟩
        exact ⟨v, Or.inr hvm, hvb⟩
      · rintro ⟨v, hvm | hvm, hvb⟩
        · subst hvm; omega
        · exact ⟨v, hvm, hvb⟩
    · rw [lcmFold, lcmStep_eq_none a b (by omega)]
      simp only [lcmIntermediates, List.mem_cons, true_iff]
      exact ⟨lcmJS a b, Or.inl rfl, by omega⟩

theorem lcmFold_some (l : List Int) :
    ∀ a r, lcmFold a l = some r → r = List.foldl lcmJS a l := by
  induction l with
  | nil =>
    intro a r h
    simp only [lcmFold, Option.some.injEq] at h
    simp [List.foldl, h]
  | cons b t ih =>
    intro a r h
    by_cases hv : (lcmJS a b).natAbs ≤ SAFE_MAX
    · rw [lcmFold, lcmStep_eq_some a b hv] at h
      exact ih (lcmJS a b) r h
    · rw [lcmFold, lcmStep_eq_none a b (by omega)] at h
      exact absurd h (by simp)

/-- C4: on a validated non-empty array of bounded integers, the lcm
executor yields `0` as soon as some element is zero; otherwise it is the
left-to-right pairwise `lcm` reduction, and it fails (the 400 overflow
response, `none`) exactly when some intermediate reduction value leaves
the safe-integer range. -/
theorem lcm_executor_correct (arr : List Int) (hne : arr ≠ [])
    (hb : ∀ x ∈ arr, x.natAbs ≤ MAX_ARRAY_VALUE) :
    ((0 : Int) ∈ arr → lcmExecutor arr = some 0) ∧
    ((0 : Int) ∉ arr → ∀ x t, arr = x :: t →
      (lcmExecutor arr = none ↔ ∃ v ∈ lcmIntermediates x t, SAFE_MAX < v.natAbs) ∧
      (∀ r, lcmExecutor arr = some r → r = List.foldl lcmJS x t)) := by
  constructor
  · intro h0
    have hany : (arr.any fun v => v == 0) = true := by
      simp only [List.any_eq_true, beq_iff_eq]
      exact ⟨0, h0, rfl⟩
    simp [lcmExecutor, hany]
  · intro h0 x t harr
    subst harr
    have hany : ((x :: t).any fun v => v == 0) = false := by
      simp only [List.any_eq_false, beq_iff_eq]
      intro v hv
      exact fun h => h0 (h ▸ hv)
    have hex : lcmExecutor (x :: t) = lcmFold x t := by
      simp [lcmExecutor, hany]
    refine ⟨by rw [hex]; exact lcmFold_none_iff t x, ?_⟩
    intro r hr
    rw [hex] at hr
    exact lcmFold_some t x r hr

theorem lcm_executor_correct_witness :
    ([12, 18, 24] : List Int) ≠ [] ∧
    (∀ x ∈ ([12, 18, 24] : List Int), x.natAbs ≤ MAX_ARRAY_VALUE) ∧
    (((0 : Int) ∈ ([12, 18, 24] : List Int) → lcmExecutor [12, 18, 24] = some 0) ∧
    ((0 : Int) ∉ ([12, 18, 24] : List Int) → ∀ x t, ([12, 18, 24] : List Int) = x :: t →
      (lcmExecutor [12, 18, 24] = none ↔ ∃ v ∈ lcmIntermediates x t, SAFE_MAX < v.natAbs) ∧
      (∀ r, lcmExecutor [12, 18, 24] = some r → r = List.foldl lcmJS x t))) :=
  ⟨by decide, by decide, lcm_executor_correct [12, 18, 24] (by decide) (by decide)⟩

theorem fibonacci_exceeds_safe_range_witness :
    80 ≤ 80 ∧ 80 ≤ 1000 ∧
    ((∀ i, i < 79 → (fibonacciSeries 80).getD i 0 ≤ SAFE_MAX) ∧
    SAFE_MAX < (fibonacciSeries 80).getD 79 0 ∧
    ∃ x ∈ fibonacciSeries 80, SAFE_MAX < x) :=
  ⟨by decide, by decide, fibonacci_exceeds_safe_range 80 (by decide) (by decide)⟩

/-! ## AI branch behavior -/

theorem bfhlHandler_AI_valid (email apiKey q : String) (outcome : AIOutcome)
    (hq1 : (trimChars q.data).length ≠ 0)
    (hq2 : q.length ≤ MAX_AI_QUESTION_LENGTH) :
    bfhlHandler (some email) (some apiKey) (some [("AI", JVal.str q)]) outcome =
      match outcome with
      | AIOutcome.ok none => errResp 500 "AI service returned invalid response"
      | AIOutcome.ok (some txt) =>
        if txt = "" then errResp 500 "AI service returned invalid response"
        else okResp email (RData.strVal (extractWord txt))
      | AIOutcome.errorResponse => errResp 502 "AI service error"
      | AIOutcome.timedOut => errResp 504 "AI service timeout"
      | AIOutcome.netError => errResp 503 "AI service unavailable" := by
  show handleAI email (some apiKey) (JVal.str q) outcome = _
  simp only [handleAI]
  rw [if_neg hq1, if_neg (by omega : ¬ MAX_AI_QUESTION_LENGTH < q.length)]

/-- C5: with the service configured and a valid question, the three
outbound-call failure states map to three distinct statuses: an error
response from the external service gives 502, exceeding the timeout
gives 504, and any other network failure gives 503 — each as a failure
envelope (`is_success = false`). -/
theorem ai_failure_status_mapping (email apiKey q : String)
    (hq1 : (trimChars q.data).length ≠ 0)
    (hq2 : q.length ≤ MAX_AI_QUESTION_LENGTH) :
    (bfhlHandler (some email) (some apiKey) (some [("AI", JVal.str q)]) AIOutcome.errorResponse =
      errResp 502 "AI service error" ∧ (errResp 502 "AI service error").is_success = false) ∧
    (bfhlHandler (some email) (some apiKey) (some [("AI", JVal.str q)]) AIOutcome.timedOut =
      errResp 504 "AI service timeout" ∧ (errResp 504 "AI service timeout").is_success = false) ∧
    (bfhlHandler (some email) (some apiKey) (some [("AI", JVal.str q)]) AIOutcome.netError =
      errResp 503 "AI service unavailable" ∧
      (errResp 503 "AI service unavailable").is_success = false) := by
  refine ⟨⟨?_, rfl⟩, ⟨?_, rfl⟩, ⟨?_, rfl⟩⟩ <;>
    rw [bfhlHandler_AI_valid email apiKey q _ hq1 hq2]

theorem ai_failure_status_mapping_witness :
    (trimChars "Why?".data).length ≠ 0 ∧ "Why?".length ≤ MAX_AI_QUESTION_LENGTH ∧
    ((bfhlHandler (some "e@x") (some "k") (some [("AI", JVal.str "Why?")]) AIOutcome.errorResponse =
      errResp 502 "AI service error" ∧ (errResp 502 "AI service error").is_success = false) ∧
    (bfhlHandler (some "e@x") (some "k") (some [("AI", JVal.str "Why?")]) AIOutcome.timedOut =
      errResp 504 "AI service timeout" ∧ (errResp 504 "AI service timeout").is_success = false) ∧
    (bfhlHandler (some "e@x") (some "k") (some [("AI", JVal.str "Why?")]) AIOutcome.netError =
      errResp 503 "AI service unavailable" ∧
      (errResp 503 "AI service unavailable").is_success = false)) :=
  ⟨by decide, by decide, ai_failure_status_mapping "e@x" "k" "Why?" (by decide) (by decide)⟩

/-- C6 counterexample: on the reply `"U.S.A. wins"` the executor returns
`"USA"` — the `replace(/[.,!?;:]/g, '')` deletes every punctuation
character of the first token — while stripping only trailing punctuation
(the claim's wording, `extractWordSpec`) would return `"U.S.A"`. -/
theorem ai_extraction_counterexample :
    bfhlHandler (some "e@x") (some "k") (some [("AI", JVal.str "Who? Tell me.")])
        (AIOutcome.ok (some "U.S.A. wins")) = okResp "e@x" (RData.strVal "USA") ∧
    extractWordSpec "U.S.A. wins" = "U.S.A" ∧
    ("USA" : String) ≠ "U.S.A" :=
  ⟨rfl, by decide, by decide⟩

/-- C6 amended: on a successful non-empty reply the AI executor returns
the first whitespace-delimited token of the trimmed reply with every
punctuation character (`. , ! ? ; :`) removed — wherever it occurs, not
only trailing — and returns `"Unknown"` when that removal leaves
nothing. -/
theorem ai_extraction_strips_all_punct (email apiKey q reply : String)
    (hq1 : (trimChars q.data).length ≠ 0)
    (hq2 : q.length ≤ MAX_AI_QUESTION_LENGTH)
    (hr : reply ≠ "") :
    bfhlHandler (some email) (some apiKey) (some [("AI", JVal.str q)])
        (AIOutcome.ok (some reply)) = okResp email (RData.strVal (extractWord reply)) ∧
    ((extractWord reply = "Unknown" ∧ ∀ c ∈ firstTok reply.data, isPunctCh c = true) ∨
      ((extractWord reply).data.Sublist (firstTok reply.data) ∧
        (∀ c ∈ (extractWord reply).data, isPunctCh c = false) ∧
        (∀ c ∈ firstTok reply.data, isPunctCh c = false → c ∈ (extractWord reply).data))) := by
  constructor
  · rw [bfhlHandler_AI_valid email apiKey q _ hq1 hq2]
    exact if_neg hr
  · rw [extractWord]
    by_cases he : ((firstTok reply.data).filter fun c => !(isPunctCh c)) = []
    · rw [he]
      refine Or.inl ⟨rfl, ?_⟩
      intro c hc
      have := List.filter_eq_nil.mp he c hc
      simpa using this
    · rw [if_neg (by simpa [List.isEmpty_iff] using he)]
      refine Or.inr ⟨?_, ?_, ?_⟩
      · exact List.filter_sublist _
      · intro c hc
        have := (List.mem_filter.mp hc).2
        simpa using this
      · intro c hc hp
        exact List.mem_filter.mpr ⟨hc, by simp [hp]⟩

theorem ai_extraction_strips_all_punct_witness :
    (trimChars "Why?".data).length ≠ 0 ∧ "Why?".length ≤ MAX_AI_QUESTION_LENGTH ∧
    ("U.S.A. wins" : String) ≠ "" ∧
    (bfhlHandler (some "e@x") (some "k") (some [("AI", JVal.str "Why?")])
        (AIOutcome.ok (some "U.S.A. wins")) =
      okResp "e@x" (RData.strVal (extractWord "U.S.A. wins")) ∧
    ((extractWord "U.S.A. wins" = "Unknown" ∧
        ∀ c ∈ firstTok ("U.S.A. wins" : String).data, isPunctCh c = true) ∨
      ((extractWord "U.S.A. wins").data.Sublist (firstTok ("U.S.A. wins" : String).data) ∧
        (∀ c ∈ (extractWord "U.S.A. wins").data, isPunctCh c = false) ∧
        (∀ c ∈ firstTok ("U.S.A. wins" : String).data,
          isPunctCh c = false → c ∈ (extractWord "U.S.A. wins").data)))) :=
  ⟨by decide, by decide, by decide,
    ai_extraction_strips_all_punct "e@x" "k" "Why?" "U.S.A. wins"
      (by decide) (by decide) (by decide)⟩

/-- C7 counterexample: `reduce` on a one-element array returns the
element without ever calling `gcd`, so `hcf([-5])` is `-5`, not
`|-5| = 5`. -/
theorem hcf_singleton_counterexample :
    bfhlHandler (some "e@x") none (some [("hcf", JVal.arr [JVal.int (-5)])]) AIOutcome.netError =
      okResp "e@x" (RData.intVal (-5)) ∧
    hcfExecutor [(-5 : Int)] = some (-5) ∧
    hcfExecutor [(-5 : Int)] ≠ some |(-5 : Int)| :=
  ⟨rfl, rfl, by decide⟩

/-- C7 amended: on a validated single-element array `[x]` the HCF
executor returns `x` itself (the `reduce` seed, with no `gcd` applied),
which equals `|x|` exactly when `x` is non-negative. -/
theorem hcf_singleton_identity (x : Int) (hb : x.natAbs ≤ MAX_ARRAY_VALUE) :
    hcfExecutor [x] = some x ∧ (0 ≤ x → hcfExecutor [x] = some |x|) :=
  ⟨rfl, fun hx => by rw [abs_of_nonneg hx]; rfl⟩

theorem hcf_singleton_identity_witness :
    ((24 : Int).natAbs ≤ MAX_ARRAY_VALUE) ∧
    (hcfExecutor [(24 : Int)] = some 24 ∧
      (0 ≤ (24 : Int) → hcfExecutor [(24 : Int)] = some |(24 : Int)|)) :=
  ⟨by decide, hcf_singleton_identity 24 (by decide)⟩

/-- C8 counterexample: for a one-element array with no zero, `reduce`
returns the element itself, so `lcm([-5])` is `-5`, not `|-5| = 5`. -/
theorem lcm_singleton_counterexample :
    bfhlHandler (some "e@x") none (some [("lcm", JVal.arr [JVal.int (-5)])]) AIOutcome.netError =
      okResp "e@x" (RData.intVal (-5)) ∧
    lcmExecutor [(-5 : Int)] = some (-5) ∧
    lcmExecutor [(-5 : Int)] ≠ some |(-5 : Int)| :=
  ⟨rfl, by decide, by decide⟩

/-- C8 amended: on a validated single-element array `[x]` the LCM
executor returns `x` itself (`0` when `x = 0` via the zero
short-circuit, the untouched `reduce` seed otherwise), which equals
`|x|` exactly when `x` is non-negative. -/
theorem lcm_singleton_identity (x : Int) (hb : x.natAbs ≤ MAX_ARRAY_VALUE) :
    lcmExecutor [x] = some x ∧ (0 ≤ x → lcmExecutor [x] = some |x|) := by
  have h1 : lcmExecutor [x] = some x := by
    by_cases hx : x = 0
    · subst hx; rfl
    · have hany : (([x] : List Int).any fun v => v == 0) = false := by
        simp [hx]
      simp [lcmExecutor, hany, lcmFold]
  exact ⟨h1, fun hx => by rw [abs_of_nonneg hx, h1]⟩

theorem lcm_singleton_identity_witness :
    ((12 : Int).natAbs ≤ MAX_ARRAY_VALUE) ∧
    (lcmExecutor [(12 : Int)] = some 12 ∧
      (0 ≤ (12 : Int) → lcmExecutor [(12 : Int)] = some |(12 : Int)|)) :=
  ⟨by decide, lcm_singleton_identity 12 (by decide)⟩

/-! ## Envelope invariant -/

/-- A response is either some error response or a success response
carrying the configured identity. -/
def EnvShape (email : Option String) (r : Response) : Prop :=
  (∃ s m, r = errResp s m) ∨ (∃ e d, email = some e ∧ r = okResp e d)

theorem envShape_err (email : Option String) (s : Nat) (m : String) :
    EnvShape email (errResp s m) :=
  Or.inl ⟨s, m, rfl⟩

theorem envShape_ok (e : String) (d : RData) : EnvShape (some e) (okResp e d) :=
  Or.inr ⟨e, d, rfl, rfl⟩

theorem bfhlHandler_shape (email apiKey : Option String)
    (body : Option (List (String × JVal))) (outcome : AIOutcome) :
    EnvShape email (bfhlHandler email apiKey body outcome) := by
  unfold bfhlHandler handleFibonacci handlePrime handleLcm handleHcf handleAI
  repeat' split
  all_goals
    first
      | exact envShape_err _ _ _
      | exact envShape_ok _ _

/-- C9 counterexample: the GET /health success response — a response of
the service — has `is_success = true` yet carries no `data` field (and
no `error` field), so "a successful response includes a data field" and
"exactly one of data/error is present" both fail on it. -/
theorem health_success_no_data_counterexample :
    (healthHandler (some "e@x")).is_success = true ∧
    (healthHandler (some "e@x")).official_email = some "e@x" ∧
    (healthHandler (some "e@x")).data = none ∧
    (healthHandler (some "e@x")).error = none :=
  ⟨rfl, rfl, rfl, rfl⟩

/-- C9 amended: every response of the Compute (POST /bfhl) handler
satisfies the envelope invariant — success carries the configured
identity string, a `data` field and no `error` field; failure carries an
`error` field and no `data` field — and every health (GET /health)
response satisfies the same invariant except that a successful health
response carries the identity string but no `data` field. -/
theorem service_envelope_invariant (email apiKey : Option String)
    (body : Option (List (String × JVal))) (outcome : AIOutcome) :
    ((bfhlHandler email apiKey body outcome).is_success = true →
      (∃ e, email = some e ∧
        (bfhlHandler email apiKey body outcome).official_email = some e) ∧
      (∃ d, (bfhlHandler email apiKey body outcome).data = some d) ∧
      (bfhlHandler email apiKey body outcome).error = none) ∧
    ((bfhlHandler email apiKey body outcome).is_success = false →
      (bfhlHandler email apiKey body outcome).data = none ∧
      ∃ m, (bfhlHandler email apiKey body outcome).error = some m) ∧
    ((healthHandler email).is_success = true →
      (∃ e, email = some e ∧ (healthHandler email).official_email = some e) ∧
      (healthHandler email).data = none ∧
      (healthHandler email).error = none) ∧
    ((healthHandler email).is_success = false →
      (healthHandler email).data = none ∧
      ∃ m, (healthHandler email).error = some m) := by
  have hhealth :
      ((healthHandler email).is_success = true →
        (∃ e, email = some e ∧ (healthHandler email).official_email = some e) ∧
        (healthHandler email).data = none ∧
        (healthHandler email).error = none) ∧
      ((healthHandler email).is_success = false →
        (healthHandler email).data = none ∧
        ∃ m, (healthHandler email).error = some m) := by
    match email with
    | none =>
      exact ⟨fun hc => absurd hc (by simp [healthHandler, errResp]),
        fun _ => ⟨rfl, "Server configuration error", rfl⟩⟩
    | some e =>
      exact ⟨fun _ => ⟨⟨e, rfl, rfl⟩, rfl, rfl⟩,
        fun hc => absurd hc (by simp [healthHandler])⟩
  have h0 := bfhlHandler_shape email apiKey body outcome
  unfold EnvShape at h0
  rcases h0 with ⟨s, m, h⟩ | ⟨e, d, he, h⟩
  · rw [h]
    exact ⟨fun hc => absurd hc (by simp [errResp]), fun _ => ⟨rfl, m, rfl⟩,
      hhealth.1, hhealth.2⟩
  · rw [h]
    exact ⟨fun _ => ⟨⟨e, he, rfl⟩, ⟨d, rfl⟩, rfl⟩,
      fun hc => absurd hc (by simp [okResp]), hhealth.1, hhealth.2⟩

theorem service_envelope_invariant_witness :
    (∃ e, (some "e@x" : Option String) = some e ∧
      (bfhlHandler (some "e@x") none
        (some [("fibonacci", JVal.int 1)]) AIOutcome.netError).official_email = some e) ∧
    (∃ d, (bfhlHandler (some "e@x") none
      (some [("fibonacci", JVal.int 1)]) AIOutcome.netError).data = some d) ∧
    (bfhlHandler (some "e@x") none
      (some [("fibonacci", JVal.int 1)]) AIOutcome.netError).error = none :=
  (service_envelope_invariant (some "e@x") none
    (some [("fibonacci", JVal.int 1)]) AIOutcome.netError).1 (by decide)

end BFHL
